import Mathlib

/-!
Shallow embedding of the Sherlock capture-and-deduction session engine
(src/App.tsx, src/components/CameraHUD.tsx, src/services/geminiService.ts,
src/types.ts) and proofs of its session-state properties.

Modelling conventions:
* JavaScript numbers are embedded as rationals.
* A value produced by JSON.parse may lack any field, so every field of the
  parsed analysis record is an Option; this matches the runtime guards in
  the source (result.deductions and result.deductions.length checks,
  the result.session_memory check, the optional chaining on d.evidence).
  The gateway's parse boundary further distinguishes payloads that do not
  decode at all and payloads that decode with an ill-shaped deductions
  field (the filter call then throws inside the gateway's try block) from
  well-shaped decodings.
* The React application runs on a single-threaded event loop; each handler
  runs atomically against the committed component state.  The only true
  concurrency is the outstanding gateway round trip, modelled by the
  `pending` list of dispatched-but-unsettled calls; a settle event applies
  the continuation of the corresponding handleCapture invocation.
* State captured by the handleCapture closure at dispatch time (the
  analysis configuration and the CCTV flag read in the catch branch) is
  recorded in the pending entry; the success continuation uses functional
  state updates in the source and therefore reads the state current at
  settle time.
-/

namespace Sherlock

/-- Evidence bounding box in the normalized 0-1000 coordinate space
(src/types.ts, Evidence). -/
structure Evidence where
  x : ℚ
  y : ℚ
  width : ℚ
  height : ℚ
  description : String
deriving DecidableEq

/-- Web citation attached to a deduction (src/types.ts, GroundingSource). -/
structure GroundingSource where
  title : String
  uri : String
deriving DecidableEq

/-- One deduction of an analysis result (src/types.ts, Deduction).  The
evidence, logic_steps and grounding fields are Option because the record
arrives from JSON.parse and the source guards each access. -/
structure Deduction where
  title : String
  detail : String
  confidence : ℚ
  evidence : Option (List Evidence)
  logic_steps : Option (List String)
  grounding : Option (List GroundingSource)
deriving DecidableEq

/-- Scan summary of an analysis result (src/types.ts, ScanData). -/
structure ScanData where
  gender : Option String
  age_range : Option String
  environment : Option String
  attention_score : Option ℚ
  posture_score : Option ℚ
  stance : Option String
  balance : Option String
  intent_prediction : Option String
  behavioral_flags : Option (List String)
deriving DecidableEq

/-- Analytical depth level (src/types.ts, AnalysisConfig.depthLevel). -/
inductive DepthLevel where
  | fast
  | standard
  | exhaustive
deriving DecidableEq

/-- Per-session analysis configuration (src/types.ts, AnalysisConfig). -/
structure AnalysisConfig where
  confidenceThreshold : ℚ
  priorityFlags : List String
  depthLevel : DepthLevel
deriving DecidableEq

/-- Structured analysis result as it exists at runtime after JSON.parse
(src/types.ts, SherlockAnalysis).  Every field is Option: the gateway does
not validate that any field is present. -/
structure SherlockAnalysis where
  session_id : Option String
  scan_data : Option ScanData
  deductions : Option (List Deduction)
  final_assessment : Option String
  session_memory : Option (List String)
deriving DecidableEq

/-- Web payload of a grounding chunk returned by the remote provider
(src/services/geminiService.ts, groundingChunks elements). -/
structure WebInfo where
  title : Option String
  uri : Option String
deriving DecidableEq

/-- Grounding chunk from the provider response metadata. -/
structure GroundingChunk where
  web : Option WebInfo
deriving DecidableEq

/-- JavaScript string disjunction applied to an optional field: an absent
field and the empty string are both falsy and fall through to the default
(src/services/geminiService.ts, the title and uri defaults). -/
def jsOrElse (o : Option String) (dflt : String) : String :=
  match o with
  | some t => if t = "" then dflt else t
  | none => dflt

/-- Citation attachment for one surviving deduction
(src/services/geminiService.ts, lines 116-126): chunks with a web payload
become grounding sources, with a research-source label and a placeholder
link as defaults. -/
def withGrounding (cs : List GroundingChunk) (d : Deduction) : Deduction :=
  let matching := cs.filter (fun c => c.web.isSome)
  if 0 < matching.length then
    { d with grounding := some (matching.map (fun c =>
        { title := jsOrElse (c.web.bind (fun w => w.title)) "Research Source",
          uri := jsOrElse (c.web.bind (fun w => w.uri)) "#" })) }
  else d

/-- Post-parse processing of the gateway (src/services/geminiService.ts,
lines 111-128): when a deduction list is present it is filtered by the
configured confidence threshold, and when grounding chunks are present the
surviving deductions receive citations.  No field is validated. -/
def gatewayProcess (raw : SherlockAnalysis) (config : AnalysisConfig)
    (chunks : Option (List GroundingChunk)) : SherlockAnalysis :=
  let filtered : Option (List Deduction) :=
    match raw.deductions with
    | some ds => some (ds.filter (fun d => config.confidenceThreshold ≤ d.confidence))
    | none => none
  let final : Option (List Deduction) :=
    match chunks, filtered with
    | some cs, some ds => some (ds.map (withGrounding cs))
    | _, _ => filtered
  { raw with deductions := final }

/-- Outcome of the JSON.parse-and-cast boundary inside the gateway try
block (src/services/geminiService.ts, lines 107-113).  invalid: the
payload text is not syntactically valid JSON, so JSON.parse throws.
illShaped: the text decodes, but the untyped cast leaves a deductions
field that is truthy without being an array of deduction records (an
object, a number, an array holding null entries whose property access
fails in the filter callback, or a null whole payload), so the
parsed.deductions access or its filter call throws a TypeError inside the
same try block.  wellShaped raw: the text decodes to an object whose
deductions field is either absent (falsy, carried as none) or an array of
deduction records, so the filter step runs without throwing; no other
field is touched by the gateway, and nothing checks whether any required
field is present. -/
inductive ParsedPayload where
  | invalid
  | illShaped
  | wellShaped (raw : SherlockAnalysis)
deriving DecidableEq

/-- Decision logic of analyzeEvidence after the transport round trip
(src/services/geminiService.ts, lines 107-132).  An undecodable payload
and an ill-shaped decoding both throw inside the try block, and the catch
rethrows the single malformed-response error for either; a well-shaped
decoding is processed and returned without any required-field
validation. -/
def analyzeEvidencePost (parsed : ParsedPayload)
    (config : AnalysisConfig) (chunks : Option (List GroundingChunk)) :
    Except String SherlockAnalysis :=
  match parsed with
  | ParsedPayload.invalid => Except.error "Logical failure in thinking palace."
  | ParsedPayload.illShaped => Except.error "Logical failure in thinking palace."
  | ParsedPayload.wellShaped raw => Except.ok (gatewayProcess raw config chunks)

/-- Event-log entry: a deduction tagged with an identifier and a capture
timestamp (src/App.tsx, EventLogEntry). -/
structure EventLogEntry extends Deduction where
  timestamp : String
  id : String
deriving DecidableEq

/-- Event-log entries built from the surviving deductions, newest batch
first (src/App.tsx, lines 47-51); the identifier generator stands for the
per-entry uuid. -/
def mkEntries (ts : String) (ids : Nat → String) :
    List Deduction → Nat → List EventLogEntry
  | [], _ => []
  | d :: ds, i =>
      { toDeduction := d, timestamp := ts, id := ids i } :: mkEntries ts ids ds (i + 1)

/-- Fold of a list into an accumulator, appending each element only if it
is absent: the iteration order and first-occurrence semantics of a
JavaScript Set built from an array. -/
def dedupInto (acc : List String) (l : List String) : List String :=
  l.foldl (fun acc a => if a ∈ acc then acc else acc ++ [a]) acc

/-- Spread of a JavaScript Set built from the list (src/App.tsx, line 61):
duplicates removed, first occurrence kept, order preserved. -/
def jsSetDedup (l : List String) : List String :=
  dedupInto [] l

/-- JavaScript Array.prototype.slice with a negative start: the last n
elements of the list. -/
def sliceLast (n : Nat) (l : List String) : List String :=
  l.drop (l.length - n)

/-- Rolling-memory merge (src/App.tsx, line 61): deduplicate the spread of
previous memory and new facts, then keep the last 20. -/
def mergeMemory (prev facts : List String) : List String :=
  sliceLast 20 (jsSetDedup (prev ++ facts))

/-- Session state of the App component (src/App.tsx, lines 20-34). -/
structure AppState where
  isAnalyzing : Bool
  isCCTVEnabled : Bool
  currentAnalysis : Option SherlockAnalysis
  eventHistory : List EventLogEntry
  error : Option String
  memory : List String
  config : AnalysisConfig
deriving DecidableEq

/-- Initial analysis configuration (src/App.tsx, lines 30-34). -/
def initConfig : AnalysisConfig :=
  { confidenceThreshold := mkRat 1 2,
    priorityFlags := ["CRIMINAL_INTENT", "AGITATION"],
    depthLevel := DepthLevel.standard }

/-- Initial component state (src/App.tsx, lines 20-34). -/
def initState : AppState :=
  { isAnalyzing := false, isCCTVEnabled := false, currentAnalysis := none,
    eventHistory := [], error := none, memory := [], config := initConfig }

/-- Success continuation of handleCapture (src/App.tsx, lines 43-62 and the
finally clause): record the result, prepend the surviving deductions to the
event history truncated to the most recent 50 when the batch is nonempty,
merge the memory facts when present, and clear the in-flight flag.  The
source issues these as independent setter calls (the history and memory
setters use functional updates over the settle-time state), so they are
rendered as one simultaneous record update. -/
def applyCaptureSuccess (s : AppState) (result : SherlockAnalysis)
    (ts : String) (ids : Nat → String) : AppState :=
  { s with
    currentAnalysis := some result,
    eventHistory :=
      match result.deductions with
      | some ds =>
          if ds.length > 0 then (mkEntries ts ids ds 0 ++ s.eventHistory).take 50
          else s.eventHistory
      | none => s.eventHistory,
    memory :=
      match result.session_memory with
      | some facts => mergeMemory s.memory facts
      | none => s.memory,
    isAnalyzing := false }

/-- Failure continuation of handleCapture (src/App.tsx, lines 63-70): an
error message is surfaced only when the CCTV flag captured by the closure
at dispatch was off, and the in-flight flag is cleared. -/
def applyCaptureFailure (cctvAtDispatch : Bool) (s : AppState) : AppState :=
  { s with
    error :=
      if cctvAtDispatch then s.error
      else some "Logical failure: Thinking palace overloaded.",
    isAnalyzing := false }

/-- Session reset (src/App.tsx, clearDeductionData, lines 73-77): clears
the current analysis, the event history and the rolling memory; the
configuration and the in-flight flag are untouched. -/
def clearDeductionData (s : AppState) : AppState :=
  { s with currentAnalysis := none, eventHistory := [], memory := [] }

/-- CCTV toggle (src/App.tsx, toggleCCTVMode, lines 79-85): flips the flag
and clears the deduction data when turning surveillance on. -/
def toggleCCTVMode (s : AppState) : AppState :=
  let next := !s.isCCTVEnabled
  let s1 := { s with isCCTVEnabled := next }
  if next then clearDeductionData s1 else s1

/-- Snapshot of the handleCapture closure for one dispatched gateway call:
the configuration passed to analyzeEvidence and the CCTV flag read by the
catch branch. -/
structure PendingCall where
  config : AnalysisConfig
  cctv : Bool
deriving DecidableEq

/-- Whole system: committed component state plus the dispatched gateway
calls that have not settled yet. -/
structure Sys where
  app : AppState
  pending : List PendingCall
deriving DecidableEq

/-- Initial system: initial component state, no call in flight. -/
def initSys : Sys :=
  { app := initState, pending := [] }

/-- Dispatch prelude of handleCapture (src/App.tsx, lines 36-39): bail out
when a call is already in flight, otherwise raise the in-flight flag, clear
the error banner and issue the gateway call. -/
def dispatchCapture (s : Sys) : Sys :=
  if s.app.isAnalyzing then s
  else
    { app := { s.app with isAnalyzing := true, error := none },
      pending := s.pending ++ [{ config := s.app.config, cctv := s.app.isCCTVEnabled }] }

/-- External events of the event loop.  A tick is the surveillance timer
callback (src/components/CameraHUD.tsx, lines 126-137); its ready flag
stands for the frame-source readiness checks of captureFrame (readyState,
paused video).  A manual capture is the shutter or static-asset capture
path (handleManualCapture and the image branch of captureFrame).  A reset
covers every invocation of clearDeductionData through onReset
(handleFullReset, setupCamera, handleFileUpload).  A settleSuccess is the
arrival of a transport-level response carrying the JSON.parse outcome and
the grounding metadata; a settleFailure is a transport or provider
rejection. -/
inductive Ev where
  | tick (ready : Bool)
  | manualCapture (ready : Bool)
  | reset
  | toggleCCTV
  | setConfig (c : AnalysisConfig)
  | settleSuccess (parsed : ParsedPayload)
      (chunks : Option (List GroundingChunk)) (ts : String) (ids : Nat → String)
  | settleFailure

/-- One atomic event-loop transition. -/
def applyEv (s : Sys) (e : Ev) : Sys :=
  match e with
  | Ev.tick ready =>
      if s.app.isCCTVEnabled && !s.app.isAnalyzing && ready then dispatchCapture s else s
  | Ev.manualCapture ready =>
      if !s.app.isAnalyzing && ready then dispatchCapture s else s
  | Ev.reset => { s with app := clearDeductionData s.app }
  | Ev.toggleCCTV => { s with app := toggleCCTVMode s.app }
  | Ev.setConfig c => { s with app := { s.app with config := c } }
  | Ev.settleSuccess parsed chunks ts ids =>
      match s.pending with
      | [] => s
      | p :: rest =>
          match analyzeEvidencePost parsed p.config chunks with
          | Except.ok result =>
              { app := applyCaptureSuccess s.app result ts ids, pending := rest }
          | Except.error _ =>
              { app := applyCaptureFailure p.cctv s.app, pending := rest }
  | Ev.settleFailure =>
      match s.pending with
      | [] => s
      | p :: rest =>
          { app := applyCaptureFailure p.cctv s.app, pending := rest }

/-- Run of the system from the initial state over a sequence of events. -/
def run (tr : List Ev) : Sys :=
  tr.foldl applyEv initSys

/-- Combined inductive invariant: at most one call in flight, the in-flight
flag tracks the pending list, the event history holds at most 50 entries,
and the rolling memory holds at most 20 entries without duplicates. -/
def GoodSys (s : Sys) : Prop :=
  s.pending.length ≤ 1 ∧
  (s.app.isAnalyzing = true ↔ s.pending ≠ []) ∧
  s.app.eventHistory.length ≤ 50 ∧
  s.app.memory.length ≤ 20 ∧
  s.app.memory.Nodup

/-- Frame-encoder scaling (src/components/CameraHUD.tsx, lines 107-110):
the scale factor shrinks the frame only when its width exceeds 1024. -/
def encodeDims (w h : ℚ) : ℚ × ℚ :=
  let scale : ℚ := if w > 1024 then 1024 / w else 1
  (w * scale, h * scale)

/-- Display viewport; the source never reads its size when placing
evidence boxes (percentages are relative by construction). -/
structure Viewport where
  width : ℚ
  height : ℚ
deriving DecidableEq

/-- Placed evidence box, each coordinate a fraction of the viewport (a CSS
percentage divided by 100). -/
structure PlacedBox where
  left : ℚ
  top : ℚ
  width : ℚ
  height : ℚ
deriving DecidableEq

/-- Evidence projection (src/components/CameraHUD.tsx, lines 287-292): the
style computes (value / 1000) * 100 percent of the container on each axis,
that is the fraction value / 1000 of the viewport. -/
def projectEvidence (vp : Viewport) (ev : Evidence) : PlacedBox :=
  { left := ev.x / 1000, top := ev.y / 1000,
    width := ev.width / 1000, height := ev.height / 1000 }

/-- Overlay projection of a whole deduction list
(src/components/CameraHUD.tsx, lines 282-299): every evidence box of every
deduction is placed; a missing evidence list renders nothing. -/
def projectDeductions (vp : Viewport) (ds : List Deduction) : List PlacedBox :=
  (ds.map (fun d => (d.evidence.getD []).map (projectEvidence vp))).flatten

/-- Sample high-confidence deduction used in concrete executions. -/
def dW : Deduction :=
  { title := "Watch", detail := "Expensive watch", confidence := mkRat 9 10,
    evidence := none, logic_steps := none, grounding := none }

/-- Sample low-confidence deduction used in concrete executions. -/
def dLow : Deduction :=
  { title := "Hunch", detail := "Vague hunch", confidence := mkRat 3 10,
    evidence := none, logic_steps := none, grounding := none }

/-- Sample parsed analysis carrying one deduction batch and one memory
fact. -/
def resultW : SherlockAnalysis :=
  { session_id := some "CASE-000001", scan_data := none,
    deductions := some [dW, dLow], final_assessment := some "observed",
    session_memory := some ["fact one"] }

/-- Twenty-one distinct memory facts, one more than the rolling-memory
cap. -/
def facts21 : List String :=
  ["f01", "f02", "f03", "f04", "f05", "f06", "f07", "f08", "f09", "f10",
   "f11", "f12", "f13", "f14", "f15", "f16", "f17", "f18", "f19", "f20", "f21"]

/-- Sample trace that turns surveillance on and dispatches one call. -/
def trW : List Ev :=
  [Ev.toggleCCTV, Ev.tick true]

/-- Sample system with one call in flight. -/
def sysW : Sys :=
  run trW

/-! Helper lemmas about the JavaScript Set fold. -/

theorem dedupInto_nil (acc : List String) : dedupInto acc [] = acc := rfl

theorem dedupInto_cons (acc : List String) (b : String) (l : List String) :
    dedupInto acc (b :: l) = dedupInto (if b ∈ acc then acc else acc ++ [b]) l := rfl

theorem dedupInto_append (acc l1 l2 : List String) :
    dedupInto acc (l1 ++ l2) = dedupInto (dedupInto acc l1) l2 :=
  List.foldl_append ..

theorem mem_dedupInto (l : List String) :
    ∀ acc a, a ∈ dedupInto acc l ↔ a ∈ acc ∨ a ∈ l := by
  induction l with
  | nil => intro acc a; simp [dedupInto_nil]
  | cons b l ih =>
      intro acc a
      rw [dedupInto_cons]
      by_cases hb : b ∈ acc
      · rw [if_pos hb, ih]
        constructor
        · rintro (h | h)
          · exact Or.inl h
          · exact Or.inr (List.mem_cons_of_mem _ h)
        · rintro (h | h)
          · exact Or.inl h
          · rcases List.mem_cons.mp h with h | h
            · exact Or.inl (h ▸ hb)
            · exact Or.inr h
      · rw [if_neg hb, ih]
        simp only [List.mem_append, List.mem_singleton, List.mem_cons]
        tauto

theorem nodup_dedupInto (l : List String) :
    ∀ acc, acc.Nodup → (dedupInto acc l).Nodup := by
  induction l with
  | nil => intro acc h; simpa [dedupInto_nil] using h
  | cons b l ih =>
      intro acc h
      rw [dedupInto_cons]
      by_cases hb : b ∈ acc
      · rw [if_pos hb]; exact ih acc h
      · rw [if_neg hb]
        refine ih _ ?_
        rw [List.nodup_append]
        exact ⟨h, List.nodup_singleton b, by simpa [List.disjoint_singleton] using hb⟩

theorem dedupInto_split (l : List String) :
    ∀ acc, ∃ t, dedupInto acc l = acc ++ t ∧ t.Sublist l ∧ ∀ a ∈ t, a ∉ acc := by
  induction l with
  | nil => intro acc; exact ⟨[], by simp [dedupInto_nil], List.nil_sublist _, by simp⟩
  | cons b l ih =>
      intro acc
      rw [dedupInto_cons]
      by_cases hb : b ∈ acc
      · obtain ⟨t, ht, hs, hd⟩ := ih acc
        exact ⟨t, by rw [if_pos hb]; exact ht, hs.cons b, hd⟩
      · obtain ⟨t, ht, hs, hd⟩ := ih (acc ++ [b])
        refine ⟨b :: t, ?_, hs.cons₂ b, ?_⟩
        · rw [if_neg hb, ht]; simp
        · intro a ha
          rcases List.mem_cons.mp ha with h | h
          · exact h ▸ hb
          · intro hacc
            exact hd a h (List.mem_append_left _ hacc)

theorem dedupInto_eq_of_subset (l : List String) :
    ∀ acc, (∀ a ∈ l, a ∈ acc) → dedupInto acc l = acc := by
  induction l with
  | nil => intro acc _; exact dedupInto_nil acc
  | cons b l ih =>
      intro acc h
      rw [dedupInto_cons, if_pos (h b (List.mem_cons_self b l))]
      exact ih acc (fun a ha => h a (List.mem_cons_of_mem _ ha))

theorem dedupInto_eq_append_of_nodup (l : List String) :
    ∀ acc, (acc ++ l).Nodup → dedupInto acc l = acc ++ l := by
  induction l with
  | nil => intro acc _; simp [dedupInto_nil]
  | cons b l ih =>
      intro acc h
      have hb : b ∉ acc := by
        intro hmem
        rw [List.nodup_append] at h
        exact h.2.2 hmem (List.mem_cons_self b l)
      rw [dedupInto_cons, if_neg hb]
      have h' : ((acc ++ [b]) ++ l).Nodup := by
        simpa [List.append_assoc] using h
      rw [ih _ h']
      simp

theorem nodup_jsSetDedup (l : List String) : (jsSetDedup l).Nodup :=
  nodup_dedupInto l [] List.nodup_nil

theorem mem_jsSetDedup (l : List String) (a : String) :
    a ∈ jsSetDedup l ↔ a ∈ l := by
  rw [jsSetDedup, mem_dedupInto]; simp

theorem jsSetDedup_eq_self (l : List String) (h : l.Nodup) : jsSetDedup l = l := by
  have := dedupInto_eq_append_of_nodup l [] (by simpa using h)
  simpa [jsSetDedup] using this

/-! Helper lemmas about the slice and merge operations. -/

theorem length_sliceLast_le (n : Nat) (l : List String) :
    (sliceLast n l).length ≤ n := by
  simp only [sliceLast, List.length_drop]
  omega

theorem sliceLast_of_le (n : Nat) (l : List String) (h : l.length ≤ n) :
    sliceLast n l = l := by
  simp [sliceLast, Nat.sub_eq_zero_of_le h]

theorem nodup_sliceLast (n : Nat) (l : List String) (h : l.Nodup) :
    (sliceLast n l).Nodup :=
  (List.drop_sublist _ _).nodup h

theorem length_mergeMemory_le (prev facts : List String) :
    (mergeMemory prev facts).length ≤ 20 :=
  length_sliceLast_le 20 _

theorem nodup_mergeMemory (prev facts : List String) :
    (mergeMemory prev facts).Nodup :=
  nodup_sliceLast 20 _ (nodup_jsSetDedup _)

theorem mergeMemory_idem (prev facts : List String)
    (h : ∀ f ∈ facts, f ∈ mergeMemory prev facts) :
    mergeMemory (mergeMemory prev facts) facts = mergeMemory prev facts := by
  have hnodup : (mergeMemory prev facts).Nodup := nodup_mergeMemory prev facts
  have hlen : (mergeMemory prev facts).length ≤ 20 := length_mergeMemory_le prev facts
  rw [mergeMemory, jsSetDedup, dedupInto_append]
  rw [show dedupInto [] (mergeMemory prev facts) = jsSetDedup (mergeMemory prev facts) from rfl]
  rw [jsSetDedup_eq_self _ hnodup]
  rw [dedupInto_eq_of_subset _ _ h]
  exact sliceLast_of_le _ _ hlen

/-! Invariant preservation across the event loop. -/

theorem goodSys_init : GoodSys initSys := by
  refine ⟨by simp [initSys], by simp [initSys, initState], ?_, ?_, ?_⟩ <;>
    simp [initSys, initState]

theorem goodSys_dispatch (s : Sys) (h : GoodSys s) : GoodSys (dispatchCapture s) := by
  obtain ⟨h1, h2, h3, h4, h5⟩ := h
  unfold dispatchCapture
  by_cases ha : s.app.isAnalyzing
  · simp only [ha, if_true]
    exact ⟨h1, h2, h3, h4, h5⟩
  · have hp : s.pending = [] := by
      by_contra hne
      exact ha (h2.mpr hne)
    simp only [ha, if_false, Bool.false_eq_true]
    exact ⟨by simp [hp], by simp [hp], h3, h4, h5⟩

theorem history_applyCaptureSuccess (s : AppState) (result : SherlockAnalysis)
    (ts : String) (ids : Nat → String) (h : s.eventHistory.length ≤ 50) :
    (applyCaptureSuccess s result ts ids).eventHistory.length ≤ 50 := by
  simp only [applyCaptureSuccess]
  cases hd : result.deductions with
  | none => exact h
  | some ds =>
      by_cases hl : ds.length > 0
      · simp only [hl, if_true, List.length_take]
        omega
      · simpa [hl] using h

theorem memory_applyCaptureSuccess (s : AppState) (result : SherlockAnalysis)
    (ts : String) (ids : Nat → String) (h1 : s.memory.length ≤ 20)
    (h2 : s.memory.Nodup) :
    (applyCaptureSuccess s result ts ids).memory.length ≤ 20 ∧
      (applyCaptureSuccess s result ts ids).memory.Nodup := by
  simp only [applyCaptureSuccess]
  cases hm : result.session_memory with
  | none => exact ⟨h1, h2⟩
  | some facts => exact ⟨length_mergeMemory_le _ _, nodup_mergeMemory _ _⟩

theorem applyEv_tick (s : Sys) (ready : Bool) :
    applyEv s (Ev.tick ready) =
      if s.app.isCCTVEnabled && !s.app.isAnalyzing && ready then dispatchCapture s
      else s := rfl

theorem applyEv_manualCapture (s : Sys) (ready : Bool) :
    applyEv s (Ev.manualCapture ready) =
      if !s.app.isAnalyzing && ready then dispatchCapture s else s := rfl

theorem applyEv_reset (s : Sys) :
    applyEv s Ev.reset = { s with app := clearDeductionData s.app } := rfl

theorem applyEv_toggleCCTV (s : Sys) :
    applyEv s Ev.toggleCCTV = { s with app := toggleCCTVMode s.app } := rfl

theorem applyEv_setConfig (s : Sys) (c : AnalysisConfig) :
    applyEv s (Ev.setConfig c) = { s with app := { s.app with config := c } } := rfl

theorem applyEv_settleSuccess (s : Sys) (parsed : ParsedPayload)
    (chunks : Option (List GroundingChunk)) (ts : String) (ids : Nat → String) :
    applyEv s (Ev.settleSuccess parsed chunks ts ids) =
      match s.pending with
      | [] => s
      | p :: rest =>
          match analyzeEvidencePost parsed p.config chunks with
          | Except.ok result =>
              { app := applyCaptureSuccess s.app result ts ids, pending := rest }
          | Except.error _ =>
              { app := applyCaptureFailure p.cctv s.app, pending := rest } := rfl

theorem applyEv_settleFailure (s : Sys) :
    applyEv s Ev.settleFailure =
      match s.pending with
      | [] => s
      | p :: rest => { app := applyCaptureFailure p.cctv s.app, pending := rest } := rfl

theorem applyEv_settleSuccess_nil (s : Sys) (parsed : ParsedPayload)
    (chunks : Option (List GroundingChunk)) (ts : String) (ids : Nat → String)
    (hp : s.pending = []) :
    applyEv s (Ev.settleSuccess parsed chunks ts ids) = s := by
  rw [applyEv_settleSuccess, hp]

theorem applyEv_settleSuccess_cons (s : Sys) (p : PendingCall) (rest : List PendingCall)
    (parsed : ParsedPayload) (chunks : Option (List GroundingChunk))
    (ts : String) (ids : Nat → String) (hp : s.pending = p :: rest) :
    applyEv s (Ev.settleSuccess parsed chunks ts ids) =
      match analyzeEvidencePost parsed p.config chunks with
      | Except.ok result =>
          { app := applyCaptureSuccess s.app result ts ids, pending := rest }
      | Except.error _ =>
          { app := applyCaptureFailure p.cctv s.app, pending := rest } := by
  rw [applyEv_settleSuccess, hp]

theorem applyEv_settleFailure_nil (s : Sys) (hp : s.pending = []) :
    applyEv s Ev.settleFailure = s := by
  rw [applyEv_settleFailure, hp]

theorem applyEv_settleFailure_cons (s : Sys) (p : PendingCall) (rest : List PendingCall)
    (hp : s.pending = p :: rest) :
    applyEv s Ev.settleFailure =
      { app := applyCaptureFailure p.cctv s.app, pending := rest } := by
  rw [applyEv_settleFailure, hp]

theorem goodSys_applyEv (s : Sys) (e : Ev) (h : GoodSys s) : GoodSys (applyEv s e) := by
  obtain ⟨h1, h2, h3, h4, h5⟩ := h
  cases e with
  | tick ready =>
      rw [applyEv_tick]
      by_cases hc : (s.app.isCCTVEnabled && !s.app.isAnalyzing && ready) = true
      · rw [if_pos hc]; exact goodSys_dispatch s ⟨h1, h2, h3, h4, h5⟩
      · rw [if_neg hc]; exact ⟨h1, h2, h3, h4, h5⟩
  | manualCapture ready =>
      rw [applyEv_manualCapture]
      by_cases hc : (!s.app.isAnalyzing && ready) = true
      · rw [if_pos hc]; exact goodSys_dispatch s ⟨h1, h2, h3, h4, h5⟩
      · rw [if_neg hc]; exact ⟨h1, h2, h3, h4, h5⟩
  | reset =>
      rw [applyEv_reset]
      exact ⟨h1, by simpa [clearDeductionData] using h2, by simp [clearDeductionData],
        by simp [clearDeductionData], by simp [clearDeductionData]⟩
  | toggleCCTV =>
      rw [applyEv_toggleCCTV]
      by_cases hb : (!s.app.isCCTVEnabled) = true
      · exact ⟨h1, by simpa [toggleCCTVMode, clearDeductionData, hb] using h2,
          by simp [toggleCCTVMode, clearDeductionData, hb],
          by simp [toggleCCTVMode, clearDeductionData, hb],
          by simp [toggleCCTVMode, clearDeductionData, hb]⟩
      · exact ⟨h1, by simpa [toggleCCTVMode, clearDeductionData, hb] using h2,
          by simpa [toggleCCTVMode, clearDeductionData, hb] using h3,
          by simpa [toggleCCTVMode, clearDeductionData, hb] using h4,
          by simpa [toggleCCTVMode, clearDeductionData, hb] using h5⟩
  | setConfig c =>
      rw [applyEv_setConfig]
      exact ⟨h1, h2, h3, h4, h5⟩
  | settleSuccess parsed chunks ts ids =>
      cases hp : s.pending with
      | nil =>
          rw [applyEv_settleSuccess_nil s parsed chunks ts ids hp]
          exact ⟨h1, h2, h3, h4, h5⟩
      | cons p rest =>
          have hrest : rest = [] := by
            rw [hp] at h1
            simp only [List.length_cons] at h1
            exact List.eq_nil_of_length_eq_zero (by omega)
          subst hrest
          rw [applyEv_settleSuccess_cons s p [] parsed chunks ts ids hp]
          cases hres : analyzeEvidencePost parsed p.config chunks with
          | ok result =>
              refine ⟨by simp, by simp [applyCaptureSuccess], ?_, ?_, ?_⟩
              · exact history_applyCaptureSuccess _ _ _ _ h3
              · exact (memory_applyCaptureSuccess _ _ _ _ h4 h5).1
              · exact (memory_applyCaptureSuccess _ _ _ _ h4 h5).2
          | error err =>
              exact ⟨by simp, by simp [applyCaptureFailure], h3, h4, h5⟩
  | settleFailure =>
      cases hp : s.pending with
      | nil =>
          rw [applyEv_settleFailure_nil s hp]
          exact ⟨h1, h2, h3, h4, h5⟩
      | cons p rest =>
          have hrest : rest = [] := by
            rw [hp] at h1
            simp only [List.length_cons] at h1
            exact List.eq_nil_of_length_eq_zero (by omega)
          subst hrest
          rw [applyEv_settleFailure_cons s p [] hp]
          exact ⟨by simp, by simp [applyCaptureFailure], h3, h4, h5⟩

theorem goodSys_run (tr : List Ev) : GoodSys (run tr) := by
  rw [run]
  have main : ∀ s, GoodSys s → GoodSys (tr.foldl applyEv s) := by
    induction tr with
    | nil => intro s hs; exact hs
    | cons e tr ih =>
        intro s hs
        exact ih _ (goodSys_applyEv s e hs)
  exact main initSys goodSys_init

/-! Helper lemmas about the gateway filter and entry construction. -/

theorem confidence_withGrounding (cs : List GroundingChunk) (d : Deduction) :
    (withGrounding cs d).confidence = d.confidence := by
  simp only [withGrounding]
  split <;> rfl

theorem mem_mkEntries (ts : String) (ids : Nat → String) :
    ∀ (ds : List Deduction) (i : Nat) (e : EventLogEntry),
      e ∈ mkEntries ts ids ds i → ∃ d ∈ ds, e.toDeduction = d := by
  intro ds
  induction ds with
  | nil => intro i e he; simp [mkEntries] at he
  | cons d ds ih =>
      intro i e he
      simp only [mkEntries] at he
      rcases List.mem_cons.mp he with h | h
      · exact ⟨d, List.mem_cons_self d ds, by rw [h]⟩
      · obtain ⟨d2, hd2, he2⟩ := ih (i + 1) e h
        exact ⟨d2, List.mem_cons_of_mem _ hd2, he2⟩

theorem conf_of_mem_gateway (raw : SherlockAnalysis) (config : AnalysisConfig)
    (chunks : Option (List GroundingChunk)) (ds : List Deduction) (d : Deduction)
    (hds : (gatewayProcess raw config chunks).deductions = some ds) (hd : d ∈ ds) :
    config.confidenceThreshold ≤ d.confidence := by
  cases hr : raw.deductions with
  | none =>
      cases chunks with
      | none => simp [gatewayProcess, hr] at hds
      | some cs => simp [gatewayProcess, hr] at hds
  | some ds0 =>
      cases chunks with
      | none =>
          simp only [gatewayProcess, hr] at hds
          rw [Option.some_inj] at hds
          subst hds
          exact of_decide_eq_true (List.mem_filter.mp hd).2
      | some cs =>
          simp only [gatewayProcess, hr] at hds
          rw [Option.some_inj] at hds
          subst hds
          obtain ⟨d0, hd0, rfl⟩ := List.mem_map.mp hd
          rw [confidence_withGrounding]
          exact of_decide_eq_true (List.mem_filter.mp hd0).2

/-- C2: single-in-flight backpressure.  After any event sequence at most
one analysis call is in flight, and a surveillance tick arriving while a
call is in flight leaves the system unchanged: nothing is dispatched and
nothing is queued. -/
theorem single_in_flight_backpressure (tr : List Ev) (ready : Bool) :
    (run tr).pending.length ≤ 1 ∧
      ((run tr).pending ≠ [] → applyEv (run tr) (Ev.tick ready) = run tr) := by
  obtain ⟨h1, h2, h3, h4, h5⟩ := goodSys_run tr
  refine ⟨h1, fun hne => ?_⟩
  have ha : (run tr).app.isAnalyzing = true := h2.mpr hne
  rw [applyEv_tick, ha]
  simp

/-- Witness for C2: a concrete run with a call in flight on which the next
tick is dropped. -/
theorem single_in_flight_backpressure_witness :
    sysW.pending ≠ [] ∧ applyEv sysW (Ev.tick true) = sysW :=
  ⟨by decide, (single_in_flight_backpressure trW true).2 (by decide)⟩

/-- C4: bounded state.  After any event sequence the event history holds at
most 50 entries and the rolling memory at most 20; on a successful settle
the history becomes the new entries (newest first) prepended to the old
ones and truncated to the most recent 50, and the memory becomes the
deduplicated spread truncated to its last 20 elements. -/
theorem bounded_state :
    (∀ tr : List Ev,
        (run tr).app.eventHistory.length ≤ 50 ∧ (run tr).app.memory.length ≤ 20) ∧
    (∀ (s : AppState) (result : SherlockAnalysis) (ts : String) (ids : Nat → String)
        (ds : List Deduction), result.deductions = some ds → 0 < ds.length →
        (applyCaptureSuccess s result ts ids).eventHistory =
          (mkEntries ts ids ds 0 ++ s.eventHistory).take 50) ∧
    (∀ (s : AppState) (result : SherlockAnalysis) (ts : String) (ids : Nat → String)
        (facts : List String), result.session_memory = some facts →
        (applyCaptureSuccess s result ts ids).memory =
          sliceLast 20 (jsSetDedup (s.memory ++ facts))) := by
  refine ⟨fun tr => ?_, fun s result ts ids ds hd hl => ?_, fun s result ts ids facts hm => ?_⟩
  · obtain ⟨-, -, h3, h4, -⟩ := goodSys_run tr
    exact ⟨h3, h4⟩
  · simp [applyCaptureSuccess, hd, hl]
  · simp [applyCaptureSuccess, hm, mergeMemory]

/-- Witness for C4 at concrete inputs. -/
theorem bounded_state_witness :
    ((run trW).app.eventHistory.length ≤ 50 ∧ (run trW).app.memory.length ≤ 20) ∧
    (applyCaptureSuccess initState resultW "12:00:00" (fun _ => "ID")).eventHistory =
      (mkEntries "12:00:00" (fun _ => "ID") [dW, dLow] 0 ++ initState.eventHistory).take 50 ∧
    (applyCaptureSuccess initState resultW "12:00:00" (fun _ => "ID")).memory =
      sliceLast 20 (jsSetDedup (initState.memory ++ ["fact one"])) :=
  ⟨bounded_state.1 trW,
   bounded_state.2.1 initState resultW "12:00:00" (fun _ => "ID") [dW, dLow] rfl (by decide),
   bounded_state.2.2 initState resultW "12:00:00" (fun _ => "ID") ["fact one"] rfl⟩

/-- C3: confidence-threshold admission.  Any entry of the event history
after a settle is either an old entry or one admitted by this settle, and
every admitted entry has confidence at least the confidence threshold of
the configuration captured when the call was dispatched; deductions below
the threshold are discarded by the gateway filter before reaching the
history. -/
theorem confidence_threshold_admission (s : Sys) (p : PendingCall)
    (rest : List PendingCall) (parsed : ParsedPayload)
    (chunks : Option (List GroundingChunk)) (ts : String) (ids : Nat → String)
    (e : EventLogEntry) (hp : s.pending = p :: rest)
    (he : e ∈ (applyEv s (Ev.settleSuccess parsed chunks ts ids)).app.eventHistory) :
    e ∈ s.app.eventHistory ∨ p.config.confidenceThreshold ≤ e.confidence := by
  rw [applyEv_settleSuccess_cons s p rest parsed chunks ts ids hp] at he
  cases parsed with
  | invalid => exact Or.inl (by simpa [analyzeEvidencePost, applyCaptureFailure] using he)
  | illShaped => exact Or.inl (by simpa [analyzeEvidencePost, applyCaptureFailure] using he)
  | wellShaped raw =>
      simp only [analyzeEvidencePost] at he
      cases hd : (gatewayProcess raw p.config chunks).deductions with
      | none =>
          rw [show (applyCaptureSuccess s.app (gatewayProcess raw p.config chunks) ts
              ids).eventHistory = s.app.eventHistory from by
            simp [applyCaptureSuccess, hd]] at he
          exact Or.inl he
      | some ds =>
          by_cases hl : 0 < ds.length
          · rw [show (applyCaptureSuccess s.app (gatewayProcess raw p.config chunks) ts
                ids).eventHistory =
                  (mkEntries ts ids ds 0 ++ s.app.eventHistory).take 50 from by
              simp [applyCaptureSuccess, hd, hl]] at he
            rcases List.mem_append.mp (List.take_subset _ _ he) with hnew | hold
            · obtain ⟨d, hdmem, hde⟩ := mem_mkEntries ts ids ds 0 e hnew
              refine Or.inr ?_
              show p.config.confidenceThreshold ≤ e.toDeduction.confidence
              rw [hde]
              exact conf_of_mem_gateway raw p.config chunks ds d hd hdmem
            · exact Or.inl hold
          · rw [show (applyCaptureSuccess s.app (gatewayProcess raw p.config chunks) ts
                ids).eventHistory = s.app.eventHistory from by
              simp [applyCaptureSuccess, hd, hl]] at he
            exact Or.inl he

/-- Witness for C3: the concrete settle on the sample system admits exactly
the high-confidence entry, above the threshold of one half. -/
theorem confidence_threshold_admission_witness :
    { toDeduction := dW, timestamp := "12:00:00", id := "ID" } ∈ sysW.app.eventHistory ∨
      initConfig.confidenceThreshold ≤
        ({ toDeduction := dW, timestamp := "12:00:00", id := "ID" } : EventLogEntry).confidence :=
  confidence_threshold_admission sysW { config := initConfig, cctv := true } []
    (ParsedPayload.wellShaped resultW) none "12:00:00" (fun _ => "ID")
    { toDeduction := dW, timestamp := "12:00:00", id := "ID" } (by decide) (by decide)

/-- C10: atomicity on analysis failure.  When an in-flight call settles
with a failure (transport rejection, or a payload that did not decode:
that settle is the same transition), the current analysis, the event
history and the rolling memory are unchanged, the in-flight flag clears,
the call leaves the pending list, and the only other effect is the error
banner, raised exactly when the dispatch-time CCTV flag was off. -/
theorem failure_atomicity (s : Sys) (p : PendingCall) (rest : List PendingCall)
    (hp : s.pending = p :: rest) :
    (applyEv s Ev.settleFailure).app.currentAnalysis = s.app.currentAnalysis ∧
    (applyEv s Ev.settleFailure).app.eventHistory = s.app.eventHistory ∧
    (applyEv s Ev.settleFailure).app.memory = s.app.memory ∧
    (applyEv s Ev.settleFailure).app.isAnalyzing = false ∧
    (applyEv s Ev.settleFailure).pending = rest ∧
    (p.cctv = false → (applyEv s Ev.settleFailure).app.error =
        some "Logical failure: Thinking palace overloaded.") ∧
    (p.cctv = true → (applyEv s Ev.settleFailure).app.error = s.app.error) ∧
    (∀ (chunks : Option (List GroundingChunk)) (ts : String) (ids : Nat → String),
        applyEv s (Ev.settleSuccess ParsedPayload.invalid chunks ts ids) = applyEv s Ev.settleFailure) := by
  rw [applyEv_settleFailure_cons s p rest hp]
  refine ⟨rfl, rfl, rfl, rfl, rfl, ?_, ?_, ?_⟩
  · intro hc; simp [applyCaptureFailure, hc]
  · intro hc; simp [applyCaptureFailure, hc]
  · intro chunks ts ids
    rw [applyEv_settleSuccess_cons s p rest ParsedPayload.invalid chunks ts ids hp]
    rfl

/-- Witness for C10 on the sample in-flight system. -/
theorem failure_atomicity_witness :
    (applyEv sysW Ev.settleFailure).app.currentAnalysis = sysW.app.currentAnalysis ∧
    (applyEv sysW Ev.settleFailure).app.eventHistory = sysW.app.eventHistory ∧
    (applyEv sysW Ev.settleFailure).app.memory = sysW.app.memory ∧
    (applyEv sysW Ev.settleFailure).app.isAnalyzing = false ∧
    (applyEv sysW Ev.settleFailure).pending = [] ∧
    ((PendingCall.mk initConfig true).cctv = false →
        (applyEv sysW Ev.settleFailure).app.error =
          some "Logical failure: Thinking palace overloaded.") ∧
    ((PendingCall.mk initConfig true).cctv = true →
        (applyEv sysW Ev.settleFailure).app.error = sysW.app.error) ∧
    (∀ (chunks : Option (List GroundingChunk)) (ts : String) (ids : Nat → String),
        applyEv sysW (Ev.settleSuccess ParsedPayload.invalid chunks ts ids) = applyEv sysW Ev.settleFailure) :=
  failure_atomicity sysW (PendingCall.mk initConfig true) [] (by decide)

set_option maxRecDepth 100000 in
/-- C1 counterexample: dispatch, then reset, then the response arrives;
the session state store is changed by the stale response (the history,
memory and current analysis all move away from their post-reset values),
refuting the claimed suppression. -/
theorem stale_response_counterexample :
    (run [Ev.toggleCCTV, Ev.tick true, Ev.reset]).app.eventHistory = [] ∧
    (run [Ev.toggleCCTV, Ev.tick true, Ev.reset]).app.memory = [] ∧
    (run [Ev.toggleCCTV, Ev.tick true, Ev.reset]).app.currentAnalysis = none ∧
    (run [Ev.toggleCCTV, Ev.tick true, Ev.reset,
        Ev.settleSuccess (ParsedPayload.wellShaped resultW) none "12:00:00" (fun _ => "ID")]).app.eventHistory ≠ [] ∧
    (run [Ev.toggleCCTV, Ev.tick true, Ev.reset,
        Ev.settleSuccess (ParsedPayload.wellShaped resultW) none "12:00:00" (fun _ => "ID")]).app.memory =
      ["fact one"] ∧
    (run [Ev.toggleCCTV, Ev.tick true, Ev.reset,
        Ev.settleSuccess (ParsedPayload.wellShaped resultW) none "12:00:00" (fun _ => "ID")]).app.currentAnalysis ≠
      none :=
  ⟨by decide, by decide, by decide, by decide, by decide, by decide⟩

/-- C1 as amended: there is no stale-response suppression.  When a call is
in flight and a reset happens before its response arrives, the settle
applies the response to the cleared state exactly as it would to any other
state: the result is recorded, the surviving deductions enter the emptied
history and the facts enter the emptied memory. -/
theorem stale_response_applied (s : Sys) (p : PendingCall) (rest : List PendingCall)
    (parsed : ParsedPayload) (chunks : Option (List GroundingChunk))
    (ts : String) (ids : Nat → String) (hp : s.pending = p :: rest) :
    applyEv (applyEv s Ev.reset) (Ev.settleSuccess parsed chunks ts ids) =
      match analyzeEvidencePost parsed p.config chunks with
      | Except.ok result =>
          { app := applyCaptureSuccess (clearDeductionData s.app) result ts ids,
            pending := rest }
      | Except.error _ =>
          { app := applyCaptureFailure p.cctv (clearDeductionData s.app),
            pending := rest } := by
  rw [applyEv_reset]
  exact applyEv_settleSuccess_cons _ p rest parsed chunks ts ids hp

/-- Witness for the amended C1 on the sample in-flight system. -/
theorem stale_response_applied_witness :
    applyEv (applyEv sysW Ev.reset)
        (Ev.settleSuccess (ParsedPayload.wellShaped resultW) none "12:00:00" (fun _ => "ID")) =
      match analyzeEvidencePost (ParsedPayload.wellShaped resultW) (PendingCall.mk initConfig true).config none with
      | Except.ok result =>
          { app := applyCaptureSuccess (clearDeductionData sysW.app) result "12:00:00"
              (fun _ => "ID"),
            pending := [] }
      | Except.error _ =>
          { app := applyCaptureFailure (PendingCall.mk initConfig true).cctv
              (clearDeductionData sysW.app),
            pending := [] } :=
  stale_response_applied sysW (PendingCall.mk initConfig true) []
    (ParsedPayload.wellShaped resultW) none
    "12:00:00" (fun _ => "ID") (by decide)

set_option maxRecDepth 100000 in
/-- C5 counterexample: re-applying the same overlapping fact batch is not
idempotent with respect to membership.  A batch of 21 distinct facts
overflows the cap of 20, the oldest surviving fact is evicted on the
second merge and the previously evicted first fact is re-inserted. -/
theorem rolling_memory_counterexample :
    "f02" ∈ mergeMemory [] facts21 ∧
    "f01" ∉ mergeMemory [] facts21 ∧
    "f02" ∉ mergeMemory (mergeMemory [] facts21) facts21 ∧
    "f01" ∈ mergeMemory (mergeMemory [] facts21) facts21 :=
  ⟨by decide, by decide, by decide, by decide⟩

/-- C5 as amended: the rolling memory never holds duplicates after any
event sequence; the merge appends exactly the facts absent from the
previous memory, in arrival order (a sublist of the batch); membership in
the deduplicated spread is membership in either input; and re-applying a
batch is idempotent provided every fact of the batch is still present
after the first merge - truncation to the last 20 can evict batch facts,
and re-applying then changes membership. -/
theorem rolling_memory_set_semantics :
    (∀ tr : List Ev, (run tr).app.memory.Nodup) ∧
    (∀ (l : List String) (a : String), a ∈ jsSetDedup l ↔ a ∈ l) ∧
    (∀ prev facts : List String, ∃ t, jsSetDedup (prev ++ facts) = jsSetDedup prev ++ t ∧
        t.Sublist facts ∧ ∀ a ∈ t, a ∉ prev) ∧
    (∀ prev facts : List String, (∀ f ∈ facts, f ∈ mergeMemory prev facts) →
        mergeMemory (mergeMemory prev facts) facts = mergeMemory prev facts) := by
  refine ⟨fun tr => (goodSys_run tr).2.2.2.2, mem_jsSetDedup,
    fun prev facts => ?_, mergeMemory_idem⟩
  rw [jsSetDedup, dedupInto_append]
  obtain ⟨t, ht, hs, hd⟩ := dedupInto_split facts (dedupInto [] prev)
  exact ⟨t, ht, hs, fun a ha hmem => hd a ha ((mem_jsSetDedup prev a).mpr hmem)⟩

/-- Witness for the amended C5: a small overlapping merge that stays under
the cap is exactly idempotent. -/
theorem rolling_memory_set_semantics_witness :
    mergeMemory (mergeMemory ["alpha"] ["alpha", "beta"]) ["alpha", "beta"] =
      mergeMemory ["alpha"] ["alpha", "beta"] :=
  rolling_memory_set_semantics.2.2.2 ["alpha"] ["alpha", "beta"] (by decide)

/-- C6 counterexample: the encoder bounds only the width.  A portrait
frame of 800 by 2000 passes through unscaled, so its longer dimension
stays at 2000, above the fixed 1024 maximum. -/
theorem frame_downscaling_counterexample :
    encodeDims 800 2000 = (800, 2000) ∧
      ¬ max (encodeDims 800 2000).1 (encodeDims 800 2000).2 ≤ 1024 := by
  constructor
  · simp only [encodeDims]
    norm_num
  · simp only [encodeDims]
    norm_num

/-- C6 as amended: the encoder bounds the output width by 1024 (frames
wider than 1024 are scaled down, narrower ones pass through) and the
scaling preserves the aspect ratio; the height is not bounded. -/
theorem frame_downscaling_width_bound (w h : ℚ) (hw : 0 < w) :
    (encodeDims w h).1 ≤ 1024 ∧ (encodeDims w h).1 * h = w * (encodeDims w h).2 := by
  simp only [encodeDims]
  by_cases hc : w > 1024
  · rw [if_pos hc]
    constructor
    · have hcancel : w * (1024 / w) = 1024 := by
        field_simp
      rw [hcancel]
    · ring
  · rw [if_neg hc]
    constructor
    · simpa using le_of_not_lt hc
    · ring

/-- Witness for the amended C6 on a 2048 by 1536 frame. -/
theorem frame_downscaling_width_bound_witness :
    (encodeDims 2048 1536).1 ≤ 1024 ∧
      (encodeDims 2048 1536).1 * 1536 = 2048 * (encodeDims 2048 1536).2 :=
  frame_downscaling_width_bound 2048 1536 (by norm_num)

/-- C7: evidence projection is the linear map.  The overlay placement does
not depend on the viewport, every box is placed at the coordinates divided
by 1000 as fractions of the viewport (the mapping is a pure function of
the evidence record, hence idempotent across re-renders of the same
result), and the sample box lands at one half, one quarter, one tenth and
one twentieth. -/
theorem evidence_projection_linear (vp vp2 : Viewport) (ds : List Deduction)
    (ev : Evidence) :
    projectDeductions vp ds = projectDeductions vp2 ds ∧
    projectEvidence vp ev =
      { left := ev.x / 1000, top := ev.y / 1000,
        width := ev.width / 1000, height := ev.height / 1000 } ∧
    projectEvidence vp
        { x := 500, y := 250, width := 100, height := 50, description := "sleeve" } =
      { left := 1/2, top := 1/4, width := 1/10, height := 1/20 } := by
  refine ⟨rfl, rfl, ?_⟩
  simp only [projectEvidence, PlacedBox.mk.injEq]
  norm_num

/-- C8 counterexample: out-of-range coordinates are not clamped.  A box
with x = 1500 on the 0-1000 scale is placed at left = 3/2 of the viewport,
outside [0,1]. -/
theorem projection_clamping_counterexample :
    (projectEvidence { width := 640, height := 480 }
        { x := 1500, y := 250, width := 100, height := 50,
          description := "offscreen" }).left = 3/2 ∧
    ¬ (projectEvidence { width := 640, height := 480 }
        { x := 1500, y := 250, width := 100, height := 50,
          description := "offscreen" }).left ≤ 1 := by
  constructor
  · simp only [projectEvidence]
    norm_num
  · simp only [projectEvidence]
    norm_num

/-- C8 as amended: the projection is total and applies the same linear
formula to every box, including out-of-range ones, with no clamping and no
rejection; a coordinate beyond 1000 yields a fraction beyond 1. -/
theorem projection_no_clamping (vp : Viewport) (ev : Evidence) (hx : 1000 < ev.x) :
    projectEvidence vp ev =
      { left := ev.x / 1000, top := ev.y / 1000,
        width := ev.width / 1000, height := ev.height / 1000 } ∧
    1 < (projectEvidence vp ev).left := by
  refine ⟨rfl, ?_⟩
  show (1:ℚ) < ev.x / 1000
  rw [lt_div_iff₀ (by norm_num : (0:ℚ) < 1000)]
  linarith

/-- Witness for the amended C8. -/
theorem projection_no_clamping_witness :
    projectEvidence { width := 640, height := 480 }
        { x := 1500, y := 0, width := 0, height := 0, description := "box" } =
      { left := (1500:ℚ) / 1000, top := (0:ℚ) / 1000,
        width := (0:ℚ) / 1000, height := (0:ℚ) / 1000 } ∧
    1 < (projectEvidence { width := 640, height := 480 }
        { x := 1500, y := 0, width := 0, height := 0, description := "box" }).left :=
  projection_no_clamping { width := 640, height := 480 }
    { x := 1500, y := 0, width := 0, height := 0, description := "box" } (by norm_num)

/-- C9 counterexample: a decoded payload with every required field missing
(the empty JSON object, which is also what an empty response text defaults
to) is returned as a success by the gateway, not rejected as a malformed
response. -/
theorem required_field_counterexample :
    analyzeEvidencePost
        (ParsedPayload.wellShaped
          { session_id := none, scan_data := none, deductions := none,
            final_assessment := none, session_memory := none })
        initConfig none =
      Except.ok { session_id := none, scan_data := none, deductions := none,
                  final_assessment := none, session_memory := none } := by
  rfl

/-- C9 as amended: the gateway fails with the malformed-response error
when the payload is not decodable JSON, and also when the payload decodes
but its deductions field is truthy without being an array of deduction
records, so that the local filter call throws inside the same try block
(such an ill-shaped settle takes the same failure transition as an
undecodable one); required fields are never validated: a decoding whose
deductions field is absent or an array is returned as a success whatever
fields are missing, and on settle its processed form becomes the current
analysis. -/
theorem malformed_response_parse_only (config : AnalysisConfig)
    (chunks : Option (List GroundingChunk)) (raw : SherlockAnalysis) (s : Sys)
    (p : PendingCall) (rest : List PendingCall) (ts : String) (ids : Nat → String)
    (hp : s.pending = p :: rest) :
    analyzeEvidencePost ParsedPayload.invalid config chunks =
      Except.error "Logical failure in thinking palace." ∧
    analyzeEvidencePost ParsedPayload.illShaped config chunks =
      Except.error "Logical failure in thinking palace." ∧
    analyzeEvidencePost (ParsedPayload.wellShaped raw) config chunks =
      Except.ok (gatewayProcess raw config chunks) ∧
    (applyEv s (Ev.settleSuccess (ParsedPayload.wellShaped raw) chunks ts
        ids)).app.currentAnalysis = some (gatewayProcess raw p.config chunks) ∧
    applyEv s (Ev.settleSuccess ParsedPayload.illShaped chunks ts ids) =
      applyEv s Ev.settleFailure := by
  refine ⟨rfl, rfl, rfl, ?_, ?_⟩
  · rw [applyEv_settleSuccess_cons s p rest (ParsedPayload.wellShaped raw) chunks ts ids hp]
    rfl
  · rw [applyEv_settleSuccess_cons s p rest ParsedPayload.illShaped chunks ts ids hp,
      applyEv_settleFailure_cons s p rest hp]
    rfl

/-- Witness for the amended C9 on the sample in-flight system. -/
theorem malformed_response_parse_only_witness :
    analyzeEvidencePost ParsedPayload.invalid initConfig none =
      Except.error "Logical failure in thinking palace." ∧
    analyzeEvidencePost ParsedPayload.illShaped initConfig none =
      Except.error "Logical failure in thinking palace." ∧
    analyzeEvidencePost (ParsedPayload.wellShaped resultW) initConfig none =
      Except.ok (gatewayProcess resultW initConfig none) ∧
    (applyEv sysW (Ev.settleSuccess (ParsedPayload.wellShaped resultW) none "12:00:00"
        (fun _ => "ID"))).app.currentAnalysis =
      some (gatewayProcess resultW (PendingCall.mk initConfig true).config none) ∧
    applyEv sysW (Ev.settleSuccess ParsedPayload.illShaped none "12:00:00"
        (fun _ => "ID")) = applyEv sysW Ev.settleFailure :=
  malformed_response_parse_only initConfig none resultW sysW
    (PendingCall.mk initConfig true) [] "12:00:00" (fun _ => "ID") (by decide)

end Sherlock
